import Mathlib

/-!
Verification of the film-festival content server (`server.js`).

The development shallowly embeds the parts of the server that the
specification's testable properties talk about:

* the identity resolver `extractPublicId`;
* the access-control gate `authMiddleware` / `verifyJwtToken`;
* the four deletion handlers (gallery photo, partner logo, award-slot
  photo, whole award category).

JavaScript runtime details (truthiness, strict equality on possibly
missing object fields, single-character `split`, the trailing-extension
regular expression) are modelled by small named helpers so that every
handler definition can be compared line by line with the source.
The external collaborators (the remote media store's `destroy`, the
document store's `save`, the token-signature check, the account lookup)
are parameters of the embedded operations, mirroring the spec's view of
them as interfaces.
-/

/-! ## JavaScript-runtime helpers -/

/-- JS truthiness of a possibly-missing string field
(`undefined` and the empty string are falsy). -/
def jsTruthy : Option String → Bool
  | some v => v != ""
  | none => false

/-- JS strict equality (`===`) on possibly-missing string fields:
`undefined === undefined` is true, `undefined === s` is false. -/
def jsStrictEq : Option String → Option String → Bool
  | some a, some b => a == b
  | none, none => true
  | _, _ => false

/-- JS strict equality of a possibly-missing field against a present string. -/
def jsEqStr (o : Option String) (x : String) : Bool := jsStrictEq o (some x)

/-- `a || b` on a possibly-missing string with a string fallback. -/
def jsOr (a : Option String) (b : String) : String :=
  match a with
  | some v => if v = "" then b else v
  | none => b

/-- The truthy values of an optional field, as a zero-or-one element list
(used for `if (x) candidates.push(x)` and `.filter(Boolean)` patterns). -/
def truthyList : Option String → List String
  | some v => if v = "" then [] else [v]
  | none => []

/-- `needle` starts `hay` (character-level). -/
def leadsWith : List Char → List Char → Bool
  | [], _ => true
  | _ :: _, [] => false
  | a :: as, b :: bs => a == b && leadsWith as bs

/-- `needle` occurs inside `hay` (character-level); models JS
`String.prototype.includes`, in particular the empty needle occurs in
every string. -/
def occursIn (needle : List Char) : List Char → Bool
  | [] => needle.isEmpty
  | b :: bs => leadsWith needle (b :: bs) || occursIn needle bs

/-- JS `hay.includes(sub)`. -/
def includesStr (hay sub : String) : Bool := occursIn sub.toList hay.toList

/-- ASCII lowering of one character; `String.prototype.toLowerCase`
acts per character, and only the ASCII range can influence the
`bearer ` test below. -/
def lowerChar (c : Char) : Char :=
  if 'A' ≤ c && c ≤ 'Z' then Char.ofNat (c.toNat + 32) else c

/-- `authHeader.toLowerCase().startsWith('bearer ')`. -/
def lowerStartsBearer (h : String) : Bool :=
  leadsWith "bearer ".toList (h.toList.map lowerChar)

/-- `p.url && p.url.includes(pid)`. -/
def urlIncludes (url : Option String) (pid : String) : Bool :=
  match url with
  | some u => (u != "") && includesStr u pid
  | none => false

/-- JS `String.prototype.split` with a single-character separator: the
separator is dropped and empty pieces are kept (`"a//b" ↦ ["a","","b"]`,
`"" ↦ [""]`). -/
def splitChar (c : Char) : List Char → List (List Char)
  | [] => [[]]
  | x :: xs =>
    match splitChar c xs with
    | ys :: yss => if x == c then [] :: ys :: yss else (x :: ys) :: yss
    | [] => [[]]

/-- JS `s.split('/')` on strings. -/
def jsSplitSlash (s : String) : List String := (splitChar '/' s.toList).map String.mk

/-- JS `Array.prototype.join('/')`. -/
def joinSlash : List String → String
  | [] => ""
  | [x] => x
  | x :: y :: xs => x ++ "/" ++ joinSlash (y :: xs)

/-- JS `Array.prototype.findIndex` (position of the first match). -/
def jsFindIndex (p : String → Bool) : List String → Option Nat
  | [] => none
  | x :: xs => if p x then some 0 else (jsFindIndex p xs).map (· + 1)

/-- The elements of a list paired with their positions, starting at `i`;
positions model JS object identity of distinct array members. -/
def enumFrom (i : Nat) : List α → List (Nat × α)
  | [] => []
  | x :: xs => (i, x) :: enumFrom (i + 1) xs

/-- One pass of `for (c of candidates) { if (!c || tried.has(c)) continue; tried.add(c); … }`:
drops empty strings and keeps the first occurrence of every candidate. -/
def dedupKeep (seen : List String) : List String → List String
  | [] => []
  | c :: cs => if c = "" || seen.contains c then dedupKeep seen cs
               else c :: dedupKeep (c :: seen) cs

/-- Replace the first element satisfying `p` (models mutating, in place, the
element returned by `Array.prototype.find`). -/
def updFirst (p : α → Bool) (f : α → α) : List α → List α
  | [] => []
  | x :: xs => if p x then f x :: xs else x :: updFirst p f xs

/-- The regular-expression replacement `replace(/\.[a-zA-Z0-9]+$/, '')` on a
character list: when the characters after the last dot are one or more
alphanumerics, the dot and everything after it are removed. -/
def charStripExt (l : List Char) : List Char :=
  match (l.reverse).dropWhile Char.isAlphanum with
  | '.' :: rest =>
    if ((l.reverse).takeWhile Char.isAlphanum).isEmpty then l else rest.reverse
  | _ => l

/-- `s.replace(/\.[a-zA-Z0-9]+$/, '')` on strings. -/
def stripExt (s : String) : String := String.mk (charStripExt s.toList)

/-- The version-marker test `/^v\d+$/`. -/
def isVersionSeg (p : String) : Bool :=
  match p.toList with
  | 'v' :: rest => !rest.isEmpty && rest.all Char.isDigit
  | _ => false

/-- Scheme characters allowed after the leading letter of a URL scheme. -/
def schemeChar (c : Char) : Bool := c.isAlphanum || c == '+' || c == '-' || c == '.'

/-- Model of the WHATWG URL-parser collaborator (`new URL(s)` followed by
reading `u.pathname`), restricted to the hierarchical
`scheme://host/path` shapes this server stores and receives: the input
parses exactly when a valid scheme is followed by `://` and a nonempty
host, and the pathname is the part from the first `/` after the host up
to any query or fragment (`/` for a URL with no path).  Strings without
a `scheme://` separator or with an empty host fail to parse, as they do
in the runtime for the inputs these handlers receive. -/
def parseUrlPathname (s : String) : Option String :=
  let cs := s.toList
  let scheme := cs.takeWhile schemeChar
  match scheme, cs.drop scheme.length with
  | sh :: _, ':' :: '/' :: '/' :: rest =>
    if sh.isAlpha then
      let host := rest.takeWhile (fun c => c != '/' && c != '?' && c != '#')
      if host.isEmpty then none
      else
        let path := (rest.drop host.length).takeWhile (fun c => c != '?' && c != '#')
        some (String.mk (if path.isEmpty then ['/'] else path))
    else none
  | _, _ => none

/-! ## Identity resolver (`extractPublicId` and the award handlers' inline copy) -/

/-- The segment pipeline shared by `extractPublicId` and the award
handlers: split the pathname on `/`, drop empty segments, drop everything
up to and including the `upload`/`uploads` segment, drop a leading
`v<digits>` version segment, join with `/` and strip a trailing
extension. -/
def derivePublicIdFromPath (pathname : String) : String :=
  let parts := (jsSplitSlash pathname).filter (· != "")
  let candidateParts :=
    match jsFindIndex (fun q => q == "upload" || q == "uploads") parts with
    | some i => parts.drop (i + 1)
    | none => parts
  let candidateParts :=
    match candidateParts with
    | q :: rest => if isVersionSeg q then rest else q :: rest
    | [] => []
  stripExt (joinSlash candidateParts)

/-- `extractPublicId(maybeIdOrUrl)` from `server.js`: `null`/empty input
gives `null`; a bare key (no `http` scheme, no `/`) is returned as is; a
parsable URL goes through the segment pipeline, falling back to the last
nonempty path segment when the pipeline result is empty; a non-URL (the
`catch` branch) falls back to its last nonempty `/`-segment, extension
stripped, or the input itself. -/
def extractPublicId (maybeIdOrUrl : Option String) : Option String :=
  match maybeIdOrUrl with
  | none => none
  | some s =>
    if s = "" then none
    else if !leadsWith "http".toList s.toList && !(s.toList.contains '/') then some s
    else
      match parseUrlPathname s with
      | some pathname =>
        let parts := (jsSplitSlash pathname).filter (· != "")
        let joined := derivePublicIdFromPath pathname
        if joined = "" then some (stripExt ((parts.getLast?).getD ""))
        else some joined
      | none =>
        match ((jsSplitSlash s).filter (· != "")).getLast? with
        | some last => some (stripExt last)
        | none => some (stripExt s)

/-! ## Access-control gate -/

/-- A persisted admin account (password hash projected away by the
`select('-passwordHash')` lookup). -/
structure AdminUser where
  id : String
  email : String
  role : String
deriving DecidableEq

/-- The decoded JWT payload as far as `verifyJwtToken` consults it
(`decoded.id`); the email/role claims inside the token are not read. -/
structure JwtPayload where
  id : Option String
deriving DecidableEq

/-- The authenticated principal attached to the request: a persisted
account, or the synthetic legacy principal
`{ email: 'x-admin-key', role: 'admin' }`. -/
inductive Principal where
  | account (u : AdminUser)
  | legacy
deriving DecidableEq

/-- Outcome of the gate: hand the request on with a principal, or 401. -/
inductive AuthResult where
  | next (principal : Principal)
  | unauthorized
deriving DecidableEq

/-- The two headers the gate reads. -/
structure AuthRequest where
  authorization : Option String
  xAdminKey : Option String

/-- `verifyJwtToken(token)`: the signature/expiry check (`jwt.verify`,
which throws on an invalid or expired token — modelled by the collaborator
`jwtVerify` returning `none`) followed by the account lookup; a missing
`decoded.id` or a vanished account also give `null`. -/
def verifyJwtToken (jwtVerify : String → Option JwtPayload)
    (findById : String → Option AdminUser) (token : String) : Option AdminUser :=
  match jwtVerify token with
  | none => none
  | some decoded =>
    match decoded.id with
    | some uid => if uid = "" then none else findById uid
    | none => none

/-- `authHeader.split(' ')[1]` (missing when the split has no second
piece; `jwt.verify` then throws on the undefined token, giving `null`). -/
def bearerToken (h : String) : Option String :=
  ((splitChar ' ' h.toList).map String.mk)[1]?

/-- `authMiddleware`: path 1 tries the bearer token (case-insensitive
`Bearer ` test, token = `authHeader.split(' ')[1]`); on any token
failure it falls through to path 2, the legacy `x-admin-key` header
compared against the configured admin secret; otherwise 401. -/
def authMiddleware (jwtVerify : String → Option JwtPayload)
    (findById : String → Option AdminUser) (adminKey : String)
    (req : AuthRequest) : AuthResult :=
  let viaToken : Option AdminUser :=
    match req.authorization with
    | some h =>
      if lowerStartsBearer h then
        match bearerToken h with
        | some token => verifyJwtToken jwtVerify findById token
        | none => none
      else none
    | none => none
  match viaToken with
  | some u => .next (.account u)
  | none =>
    match req.xAdminKey with
    | some k => if k != "" && k == adminKey then .next .legacy else .unauthorized
    | none => .unauthorized

/-! ## Media reference store -/

/-- One `ImageSchema` entry (`doc.photos` and `doc.partners`):
`public_id` is the canonical key of the spec. -/
structure Photo where
  url : Option String
  public_id : Option String
  caption : Option String := none
deriving DecidableEq

/-- The `photo` subdocument of an award slot (`{ url, public_id }`). -/
structure PhotoRef where
  url : Option String
  public_id : Option String
deriving DecidableEq

/-- One `PersonWithPhotoSchema` award slot. -/
structure Person where
  name : Option String
  position : Option String
  photo : Option PhotoRef
deriving DecidableEq

/-- One `AwardCategorySchema` entry. -/
structure AwardCat where
  category : String
  winner : Option Person
  firstRunnerUp : Option Person
  secondRunnerUp : Option Person
deriving DecidableEq

/-- The three fixed role names. -/
inductive Role where
  | winner
  | firstRunnerUp
  | secondRunnerUp
deriving DecidableEq

/-- The `['winner','firstRunnerUp','secondRunnerUp'].includes(role)` check. -/
def parseRole (s : String) : Option Role :=
  if s == "winner" then some .winner
  else if s == "firstRunnerUp" then some .firstRunnerUp
  else if s == "secondRunnerUp" then some .secondRunnerUp
  else none

/-- Dynamic field read `cat[role]`. -/
def getRole : Role → AwardCat → Option Person
  | .winner, c => c.winner
  | .firstRunnerUp, c => c.firstRunnerUp
  | .secondRunnerUp, c => c.secondRunnerUp

/-- Dynamic field write `cat[role] = v`. -/
def setRole : Role → Option Person → AwardCat → AwardCat
  | .winner, v, c => { c with winner := v }
  | .firstRunnerUp, v, c => { c with firstRunnerUp := v }
  | .secondRunnerUp, v, c => { c with secondRunnerUp := v }

/-- Outcome of the remote media store's `destroy` call: a result object
(success or `not found`), or a thrown error. -/
inductive RemoteResult where
  | ok
  | notFound
  | error
deriving DecidableEq

/-- HTTP-level outcome of a deletion handler, after the year record has
been located. -/
inductive Outcome where
  | ok
  | notFound
  | badRequest
  | serverError
deriving DecidableEq

/-- Result of one embedded deletion operation: the persisted state, the
outcome reported to the caller, and the remote delete requests issued
together with the replies observed (the replies are only logged). -/
structure OpResult (σ : Type) where
  state : σ
  outcome : Outcome
  remoteRequests : List String
  remoteReplies : List RemoteResult
deriving DecidableEq

/-- The entry-location test of the single-item handlers:
`(p.public_id && p.public_id === public_id_param) || (p.url && p.url.includes(public_id_param))`. -/
def photoFindPred (p : Photo) (pid : String) : Bool :=
  (jsTruthy p.public_id && jsEqStr p.public_id pid) || urlIncludes p.url pid

/-- The not-found cleanup test of the single-item handlers:
`p.public_id === public_id_param || (p.url && p.url.includes(public_id_param))`. -/
def photoCleanupPred (p : Photo) (pid : String) : Bool :=
  jsEqStr p.public_id pid || urlIncludes p.url pid

/-- `photo.public_id || photo.filename || extractPublicId(photo.url) || public_id_param`
(`filename` is not a field of `ImageSchema`, so it is always undefined). -/
def candidateKey (photo : Photo) (pid : String) : String :=
  jsOr photo.public_id (jsOr (extractPublicId photo.url) pid)

/-- The `DELETE /api/content/:year/photos/:public_id` handler, from the
point where the year record has been found.  `destroy` is the remote
media store, `persistOk` tells whether `doc.save()` succeeds (a throwing
save is caught by the outer handler and reported as a server error, the
persisted state staying unchanged).  Positions (`enumFrom`) model object
identity so that `p !== photo` removes exactly the found entry. -/
def deletePhotoOp (destroy : String → RemoteResult) (persistOk : Bool)
    (photos : List Photo) (pid : String) : OpResult (List Photo) :=
  match (enumFrom 0 photos).find? (fun ip => photoFindPred ip.2 pid) with
  | none =>
    let photos' := photos.filter (fun p => !photoCleanupPred p pid)
    if persistOk then ⟨photos', .notFound, [], []⟩
    else ⟨photos, .serverError, [], []⟩
  | some (i, photo) =>
    let cand := candidateKey photo pid
    let reply := destroy cand
    let kept := (enumFrom 0 photos).filter (fun jp =>
      !(jsStrictEq jp.2.public_id photo.public_id && jsTruthy photo.public_id) && jp.1 != i)
    let kept :=
      if kept.any (fun jp => jp.1 == i) then
        kept.filter (fun jp => !(jsTruthy jp.2.url && jsTruthy photo.url
          && jsStrictEq jp.2.url photo.url))
      else kept
    if persistOk then ⟨kept.map (·.2), .ok, [cand], [reply]⟩
    else ⟨photos, .serverError, [cand], [reply]⟩

/-- The `DELETE /api/content/:year/partners/:public_id` handler, from the
point where the year record has been found; textually parallel to the
photo handler with the found-branch filter written in the partner
handler's own order. -/
def deletePartnerOp (destroy : String → RemoteResult) (persistOk : Bool)
    (partners : List Photo) (pid : String) : OpResult (List Photo) :=
  match (enumFrom 0 partners).find? (fun ip => photoFindPred ip.2 pid) with
  | none =>
    let partners' := partners.filter (fun p => !photoCleanupPred p pid)
    if persistOk then ⟨partners', .notFound, [], []⟩
    else ⟨partners, .serverError, [], []⟩
  | some (i, partner) =>
    let cand := candidateKey partner pid
    let reply := destroy cand
    let kept := (enumFrom 0 partners).filter (fun jp =>
      jp.1 != i && !(jsTruthy jp.2.public_id && jsStrictEq jp.2.public_id partner.public_id))
    let kept :=
      if kept.any (fun jp => jp.1 == i) then
        kept.filter (fun jp => !(jsTruthy jp.2.url && jsTruthy partner.url
          && jsStrictEq jp.2.url partner.url))
      else kept
    if persistOk then ⟨kept.map (·.2), .ok, [cand], [reply]⟩
    else ⟨partners, .serverError, [cand], [reply]⟩

/-- The candidate list built from one award-slot photo:
`public_id` if truthy, `filename` (absent from the schema), then the
URL-derived key (`try { new URL … } catch { last segment }`). -/
def slotCandidates (ph : PhotoRef) : List String :=
  truthyList ph.public_id ++
  (match ph.url with
   | some u =>
     if u = "" then []
     else
       match parseUrlPathname u with
       | some pathname =>
         let derived := derivePublicIdFromPath pathname
         if derived = "" then [] else [derived]
       | none =>
         match ((splitChar '/' u.toList).map String.mk).getLast? with
         | some last => if last = "" then [] else [stripExt last]
         | none => []
   | none => [])

/-- The sweep test of the award-slot-photo handler over `doc.photos`:
`samePublicId || sameFilename || sameUrl` (with `filename` always absent). -/
def awardSweepMatch (ph : PhotoRef) (p : Photo) : Bool :=
  (jsTruthy ph.public_id && jsTruthy p.public_id && jsStrictEq p.public_id ph.public_id) ||
  (jsTruthy ph.url && jsTruthy p.url && jsStrictEq p.url ph.url)

/-- The `DELETE /api/content/:year/awards/:category/:role/photo` handler,
from the point where the year record has been found. -/
def deleteAwardPhotoOp (destroy : String → RemoteResult) (persistOk : Bool)
    (awards : List AwardCat) (photos : List Photo)
    (category roleStr : String) : OpResult (List AwardCat × List Photo) :=
  if category = "" then ⟨(awards, photos), .badRequest, [], []⟩
  else
    match parseRole roleStr with
    | none => ⟨(awards, photos), .badRequest, [], []⟩
    | some role =>
      match awards.find? (fun a => a.category == category) with
      | none => ⟨(awards, photos), .notFound, [], []⟩
      | some cat =>
        match getRole role cat with
        | none => ⟨(awards, photos), .notFound, [], []⟩
        | some person =>
          let requests :=
            match person.photo with
            | some ph =>
              if jsTruthy ph.public_id || jsTruthy ph.url
              then dedupKeep [] (slotCandidates ph) else []
            | none => []
          let replies := requests.map destroy
          let awards' := updFirst (fun a => a.category == category)
            (setRole role (some { person with photo := none })) awards
          let photos' :=
            match person.photo with
            | some ph => photos.filter (fun p => !awardSweepMatch ph p)
            | none => photos
          if persistOk then ⟨(awards', photos'), .ok, requests, replies⟩
          else ⟨(awards, photos), .serverError, requests, replies⟩

/-- The flat list `photoUrlsOrIds` of the category handler:
`[photo.public_id, photo.filename, photo.url].filter(Boolean)` over the
populated slots (`filename` always absent). -/
def categorySweepKeys (people : List Person) : List String :=
  people.foldl (fun acc per =>
    match per.photo with
    | none => acc
    | some ph => acc ++ truthyList ph.public_id ++ truthyList ph.url) []

/-- The `DELETE /api/content/:year/awards/:category` handler, from the
point where the year record has been found. -/
def deleteAwardCategoryOp (destroy : String → RemoteResult) (persistOk : Bool)
    (awards : List AwardCat) (photos : List Photo)
    (category : String) : OpResult (List AwardCat × List Photo) :=
  if category = "" then ⟨(awards, photos), .badRequest, [], []⟩
  else
    match awards.find? (fun a => a.category == category) with
    | none => ⟨(awards, photos), .notFound, [], []⟩
    | some cat =>
      let people := [cat.winner, cat.firstRunnerUp, cat.secondRunnerUp].filterMap id
      let requests := people.foldl (fun acc per =>
        match per.photo with
        | none => acc
        | some ph => acc ++ dedupKeep [] (slotCandidates ph)) []
      let replies := requests.map destroy
      let awards' := awards.filter (fun a => !(a.category == category))
      let sweepKeys := categorySweepKeys people
      let photos' :=
        if sweepKeys.isEmpty then photos
        else photos.filter (fun p =>
          !(sweepKeys.any (fun x =>
            jsEqStr p.public_id x || jsEqStr p.url x || urlIncludes p.url x)))
      if persistOk then ⟨(awards', photos'), .ok, requests, replies⟩
      else ⟨(awards, photos), .serverError, requests, replies⟩

/-- A remote media store that always succeeds. -/
def destroyAllOk : String → RemoteResult := fun _ => .ok

/-- A remote media store that always throws. -/
def destroyAllErr : String → RemoteResult := fun _ => .error

/-! ## Helper lemmas about the runtime model -/

theorem splitChar_ne_nil (c : Char) (l : List Char) : splitChar c l ≠ [] := by
  cases l with
  | nil => simp [splitChar]
  | cons x xs =>
    rcases h : splitChar c xs with _ | ⟨ys, yss⟩
    · simp [splitChar, h]
    · simp only [splitChar, h]
      split <;> simp

theorem split_all_sep (cs : List Char)
    (h : ((splitChar '/' cs).map String.mk).filter (· != "") = []) :
    ∀ c ∈ cs, c = '/' := by
  induction cs with
  | nil => simp
  | cons x xs ih =>
    rcases hs : splitChar '/' xs with _ | ⟨ys, yss⟩
    · exact absurd hs (splitChar_ne_nil '/' xs)
    · by_cases hx : x = '/'
      · subst hx
        have hsplit : splitChar '/' ('/' :: xs) = [] :: ys :: yss := by
          simp [splitChar, hs]
        rw [hsplit] at h
        have hmt : (String.mk [] != "") = false := by decide
        simp only [List.map_cons, List.filter_cons, hmt, Bool.false_eq_true,
          if_false] at h
        intro c hc
        rcases List.mem_cons.mp hc with rfl | hcx
        · rfl
        · refine ih ?_ c hcx
          rw [hs]
          simp only [List.map_cons, List.filter_cons]
          exact h
      · exfalso
        have hxc : (x == '/') = false := by simpa using hx
        have hsplit : splitChar '/' (x :: xs) = (x :: ys) :: yss := by
          simp [splitChar, hs, hxc]
        rw [hsplit] at h
        have hne : (String.mk (x :: ys) != "") = true := by
          rw [bne_iff_ne]
          intro hcontra
          have hdc := congrArg String.data hcontra
          simp at hdc
        simp [hne] at h

theorem takeWhile_dropWhile_append {p : Char → Bool} {l₁ l₂ : List Char} {c : Char}
    (h₁ : ∀ x ∈ l₁, p x = true) (hc : p c = false) :
    (l₁ ++ c :: l₂).takeWhile p = l₁ ∧ (l₁ ++ c :: l₂).dropWhile p = c :: l₂ := by
  induction l₁ with
  | nil => simp [List.takeWhile_cons, List.dropWhile_cons, hc]
  | cons x xs ih =>
    have hx : p x = true := h₁ x (by simp)
    have := ih (fun y hy => h₁ y (by simp [hy]))
    simp [List.takeWhile_cons, List.dropWhile_cons, hx, this.1, this.2]

theorem charStripExt_ext (a e : List Char) (he : e ≠ [])
    (hall : ∀ c ∈ e, Char.isAlphanum c = true) :
    charStripExt (a ++ '.' :: e) = a := by
  have hrev : (a ++ '.' :: e).reverse = e.reverse ++ '.' :: a.reverse := by
    simp [List.reverse_append]
  have hmem : ∀ x ∈ e.reverse, Char.isAlphanum x = true := by
    intro x hx; exact hall x (List.mem_reverse.mp hx)
  have hdot : Char.isAlphanum '.' = false := rfl
  have htd := @takeWhile_dropWhile_append Char.isAlphanum e.reverse a.reverse '.' hmem hdot
  simp only [charStripExt, hrev, htd.1, htd.2]
  have : e.reverse.isEmpty = false := by
    cases hre : e.reverse with
    | nil => exact absurd (by simpa using hre) he
    | cons _ _ => rfl
  simp [this]

theorem charStripExt_all_sep (l : List Char) (h : ∀ c ∈ l, c = '/') :
    charStripExt l = l := by
  rcases hr : l.reverse with _ | ⟨c, cs⟩
  · simp [charStripExt, hr]
  · have hc : c = '/' := h c (List.mem_reverse.mp (by simp [hr]))
    subst hc
    simp [charStripExt, hr, List.dropWhile_cons]

theorem jsFindIndex_spec {p : String → Bool} (pre : List String) (u : String)
    (rest : List String) (hpre : ∀ x ∈ pre, p x = false) (hu : p u = true) :
    jsFindIndex p (pre ++ u :: rest) = some pre.length := by
  induction pre with
  | nil => simp [jsFindIndex, hu]
  | cons x xs ih =>
    have hx : p x = false := hpre x (by simp)
    have := ih (fun y hy => hpre y (by simp [hy]))
    simp [jsFindIndex, hx, this]

theorem drop_append_cons (pre : List String) (u : String) (rest : List String) :
    (pre ++ u :: rest).drop (pre.length + 1) = rest := by
  have h2 := List.drop_drop 1 pre.length (pre ++ u :: rest)
  rw [← h2, List.drop_left]
  rfl

theorem isVersionSeg_v_append (d : String) (hd : d.toList ≠ [])
    (hdig : d.toList.all Char.isDigit = true) : isVersionSeg ("v" ++ d) = true := by
  have hdata : ("v" ++ d).toList = 'v' :: d.toList := by
    show ("v" ++ d).data = 'v' :: d.data
    rw [String.data_append]
    rfl
  simp only [isVersionSeg, hdata]
  have : d.toList.isEmpty = false := by
    cases h : d.toList with
    | nil => exact absurd (by simpa using h) hd
    | cons _ _ => rfl
  simp [this]
  exact ⟨hd, by simpa using hdig⟩

theorem ne_empty_of_contains_slash (s : String) (h : s.toList.contains '/' = true) :
    s ≠ "" := by
  intro hs; subst hs; simp at h

theorem snd_mem_enumFrom {α : Type} (p : Nat × α) :
    ∀ (n : Nat) (l : List α), p ∈ enumFrom n l → p.2 ∈ l := by
  intro n l
  induction l generalizing n with
  | nil => simp [enumFrom]
  | cons x xs ih =>
    intro hp
    rcases List.mem_cons.mp hp with rfl | hrest
    · simp
    · exact List.mem_cons.mpr (Or.inr (ih (n + 1) hrest))

theorem enumFrom_append {α : Type} (l₁ l₂ : List α) :
    ∀ n, enumFrom n (l₁ ++ l₂) = enumFrom n l₁ ++ enumFrom (n + l₁.length) l₂ := by
  induction l₁ with
  | nil => simp [enumFrom]
  | cons x xs ih =>
    intro n
    have hlen : n + 1 + xs.length = n + (x :: xs).length := by
      simp only [List.length_cons]; omega
    calc enumFrom n (x :: xs ++ l₂) = (n, x) :: enumFrom (n + 1) (xs ++ l₂) := rfl
      _ = (n, x) :: (enumFrom (n + 1) xs ++ enumFrom (n + 1 + xs.length) l₂) := by
          rw [ih (n + 1)]
      _ = enumFrom n (x :: xs) ++ enumFrom (n + (x :: xs).length) l₂ := by
          rw [hlen]; rfl

theorem idx_lt_of_mem_enumFrom {α : Type} (p : Nat × α) :
    ∀ (n : Nat) (l : List α), p ∈ enumFrom n l → n ≤ p.1 ∧ p.1 < n + l.length := by
  intro n l
  induction l generalizing n with
  | nil => simp [enumFrom]
  | cons x xs ih =>
    intro hp
    rcases List.mem_cons.mp hp with rfl | hrest
    · simp
    · have := ih (n + 1) hrest
      constructor <;> [omega; (simp only [List.length_cons]; omega)]

theorem find?_enumFrom_none {α : Type} (p : α → Bool) :
    ∀ (n : Nat) (l : List α),
      ((enumFrom n l).find? (fun ip => p ip.2) = none) ↔ ∀ x ∈ l, p x = false := by
  intro n l
  induction l generalizing n with
  | nil => simp [enumFrom]
  | cons x xs ih =>
    simp only [enumFrom, List.find?_cons]
    cases hx : p x with
    | true => simp [hx]
    | false => simp [hx, ih (n + 1)]

theorem find?_enumFrom_some {α : Type} (p : α → Bool) :
    ∀ (n : Nat) (l : List α) (i : Nat) (z : α),
      (enumFrom n l).find? (fun ip => p ip.2) = some (i, z) →
      p z = true ∧ ∃ b a, l = b ++ z :: a ∧ i = n + b.length ∧ ∀ y ∈ b, p y = false := by
  intro n l
  induction l generalizing n with
  | nil => simp [enumFrom]
  | cons x xs ih =>
    intro i z hfind
    simp only [enumFrom, List.find?_cons] at hfind
    cases hx : p x with
    | true =>
      rw [hx] at hfind
      simp only [Option.some.injEq, Prod.mk.injEq] at hfind
      obtain ⟨rfl, rfl⟩ := hfind
      exact ⟨hx, [], xs, rfl, by simp, by simp⟩
    | false =>
      rw [hx] at hfind
      simp only [Bool.false_eq_true, if_false] at hfind
      obtain ⟨hz, b, a, rfl, hi, hb⟩ := ih (n + 1) i z hfind
      refine ⟨hz, x :: b, a, rfl, by simp [hi]; omega, ?_⟩
      intro y hy
      rcases List.mem_cons.mp hy with rfl | hyb
      · exact hx
      · exact hb y hyb

theorem find?_updFirst {α : Type} (p : α → Bool) (f : α → α) :
    ∀ (l : List α) (x : α), l.find? p = some x → p (f x) = true →
      (updFirst p f l).find? p = some (f x) := by
  intro l
  induction l with
  | nil => simp
  | cons y ys ih =>
    intro x hfind hpf
    simp only [List.find?_cons] at hfind
    cases hy : p y with
    | true =>
      rw [hy] at hfind
      simp only [Option.some.injEq] at hfind
      subst hfind
      simp [updFirst, hy, List.find?_cons, hpf]
    | false =>
      rw [hy] at hfind
      simp only [Bool.false_eq_true, if_false] at hfind
      simp [updFirst, hy, List.find?_cons, ih x hfind hpf]

theorem mem_dedupKeep (c : String) (hc : c ≠ "") :
    ∀ (l seen : List String), c ∈ l → c ∈ dedupKeep seen l ∨ c ∈ seen := by
  intro l
  induction l with
  | nil => simp
  | cons d ds ih =>
    intro seen hmem
    rcases List.mem_cons.mp hmem with rfl | hds
    · simp only [dedupKeep]
      split
      · next hcond =>
        have hor : c = "" ∨ c ∈ seen := by simpa using hcond
        rcases hor with h1 | h2
        · exact absurd h1 hc
        · exact Or.inr h2
      · exact Or.inl (by simp)
    · simp only [dedupKeep]
      split
      · exact ih seen hds
      · rcases ih (d :: seen) hds with hin | hsn
        · exact Or.inl (List.mem_cons.mpr (Or.inr hin))
        · rcases List.mem_cons.mp hsn with rfl | hs
          · exact Or.inl (by simp)
          · exact Or.inr hs

theorem foldl_append_flatten {α β : Type} (g : α → List β) :
    ∀ (l : List α) (acc : List β),
      l.foldl (fun a x => a ++ g x) acc = acc ++ (l.map g).flatten := by
  intro l
  induction l with
  | nil => simp
  | cons x xs ih =>
    intro acc
    simp only [List.foldl_cons, ih, List.map_cons, List.flatten_cons, List.append_assoc]

theorem setRole_category (r : Role) (v : Option Person) (c : AwardCat) :
    (setRole r v c).category = c.category := by
  cases r <;> rfl

theorem getRole_setRole_same (r : Role) (v : Option Person) (c : AwardCat) :
    getRole r (setRole r v c) = v := by
  cases r <;> rfl

theorem getRole_setRole_other (r r' : Role) (v : Option Person) (c : AwardCat)
    (h : r' ≠ r) : getRole r' (setRole r v c) = getRole r' c := by
  cases r <;> cases r' <;> first | rfl | exact absurd rfl h

theorem findPred_eq_cleanupPred (p : Photo) (pid : String) (hpid : pid ≠ "") :
    photoFindPred p pid = photoCleanupPred p pid := by
  simp only [photoFindPred, photoCleanupPred]
  cases hp : p.public_id with
  | none => simp [jsTruthy, jsEqStr, jsStrictEq]
  | some v =>
    by_cases hv : v = pid
    · subst hv
      have : (v != "") = true := by simpa using hpid
      simp [jsTruthy, jsEqStr, jsStrictEq, this]
    · have : (v == pid) = false := by simpa using hv
      simp [jsTruthy, jsEqStr, jsStrictEq, this]

/-! ## Claim theorems -/

/-- C1: for every protected request, the gate accepts a request bearing
only a valid unexpired bearer token resolving to an existing admin
account, with that account as principal; accepts a request bearing only
the configured static admin secret, with the synthetic legacy principal;
rejects a request bearing neither; rejects a request bearing a failing
(invalid/expired) token and no secret; accepts via the shared-secret
path when a failing token is accompanied by the correct secret; and a
token whose referenced account no longer exists verifies to nothing, so
it takes the same fall-through. -/
theorem authMiddleware_access_paths
    (jwtVerify : String → Option JwtPayload) (findById : String → Option AdminUser)
    (adminKey : String) (hdrv tokv : String) (u : AdminUser) (hdrb tokb : String)
    (hk : adminKey ≠ "")
    (hhv : lowerStartsBearer hdrv = true)
    (htv : bearerToken hdrv = some tokv)
    (hv : verifyJwtToken jwtVerify findById tokv = some u)
    (hhb : lowerStartsBearer hdrb = true)
    (htb : bearerToken hdrb = some tokb)
    (hb : verifyJwtToken jwtVerify findById tokb = none) :
    authMiddleware jwtVerify findById adminKey ⟨some hdrv, none⟩ = .next (.account u)
    ∧ authMiddleware jwtVerify findById adminKey ⟨none, some adminKey⟩ = .next .legacy
    ∧ authMiddleware jwtVerify findById adminKey ⟨none, none⟩ = .unauthorized
    ∧ authMiddleware jwtVerify findById adminKey ⟨some hdrb, none⟩ = .unauthorized
    ∧ authMiddleware jwtVerify findById adminKey ⟨some hdrb, some adminKey⟩ = .next .legacy
    ∧ (∀ tokm uid, jwtVerify tokm = some ⟨some uid⟩ → uid ≠ "" →
        findById uid = none → verifyJwtToken jwtVerify findById tokm = none) := by
  have hkb : (adminKey != "") = true := by simpa using hk
  refine ⟨?_, ?_, ?_, ?_, ?_, ?_⟩
  · simp [authMiddleware, hhv, htv, hv]
  · simp [authMiddleware, hkb]
  · simp [authMiddleware]
  · simp [authMiddleware, hhb, htb, hb]
  · simp [authMiddleware, hhb, htb, hb, hkb]
  · intro tokm uid hjv hu hfb
    simp [verifyJwtToken, hjv, hu, hfb]

/-- A concrete token-signature collaborator for exercising the gate. -/
def jvW : String → Option JwtPayload := fun t =>
  if t == "tok-good" then some ⟨some "id1"⟩ else none

/-- A concrete account-lookup collaborator for exercising the gate. -/
def fbW : String → Option AdminUser := fun i =>
  if i == "id1" then some ⟨"id1", "a@b.c", "admin"⟩ else none

/-- Witness for the gate theorem at a concrete configuration. -/
theorem authMiddleware_access_paths_witness :
    authMiddleware jvW fbW "s3cret" ⟨some "Bearer tok-good", none⟩
      = .next (.account ⟨"id1", "a@b.c", "admin"⟩)
    ∧ authMiddleware jvW fbW "s3cret" ⟨some "Bearer tok-bad", some "s3cret"⟩
      = .next .legacy :=
  ⟨(authMiddleware_access_paths jvW fbW "s3cret" "Bearer tok-good" "tok-good"
      ⟨"id1", "a@b.c", "admin"⟩ "Bearer tok-bad" "tok-bad" (by decide) (by decide)
      (by decide) (by decide) (by decide) (by decide) (by decide)).1,
   (authMiddleware_access_paths jvW fbW "s3cret" "Bearer tok-good" "tok-good"
      ⟨"id1", "a@b.c", "admin"⟩ "Bearer tok-bad" "tok-bad" (by decide) (by decide)
      (by decide) (by decide) (by decide) (by decide) (by decide)).2.2.2.2.1⟩

/-- C3: the identity resolver is total: a missing or empty input returns
nothing, and every nonempty string input returns a string — no input
reaches an unhandled failure. -/
theorem extractPublicId_total :
    extractPublicId none = none ∧ extractPublicId (some "") = none
    ∧ ∀ s : String, s ≠ "" → ∃ r, extractPublicId (some s) = some r := by
  refine ⟨rfl, by simp [extractPublicId], ?_⟩
  intro s hs
  simp only [extractPublicId]
  rw [if_neg hs]
  split
  · exact ⟨_, rfl⟩
  · split
    · split
      · exact ⟨_, rfl⟩
      · exact ⟨_, rfl⟩
    · split
      · exact ⟨_, rfl⟩
      · exact ⟨_, rfl⟩

/-- Witness for totality at a concrete nonempty input. -/
theorem extractPublicId_total_witness :
    ("events/a.jpg" : String) ≠ ""
    ∧ ∃ r, extractPublicId (some "events/a.jpg") = some r :=
  ⟨by decide, extractPublicId_total.2.2 "events/a.jpg" (by decide)⟩

/-- C8: not-found policy of single-item deletion (photos and partners):
when no entry passes the location test, the operation still removes any
entry whose canonical key equals the identifier or whose URL contains
it, persists that (possibly mutated) state durably, issues no remote
request, and reports NOT_FOUND. -/
theorem delete_notFound_policy (destroy : String → RemoteResult)
    (photos partners : List Photo) (pid : String)
    (hph : ∀ p ∈ photos, photoFindPred p pid = false)
    (hpa : ∀ p ∈ partners, photoFindPred p pid = false) :
    deletePhotoOp destroy true photos pid
      = ⟨photos.filter (fun p => !photoCleanupPred p pid), .notFound, [], []⟩
    ∧ deletePartnerOp destroy true partners pid
      = ⟨partners.filter (fun p => !photoCleanupPred p pid), .notFound, [], []⟩ := by
  have h1 : (enumFrom 0 photos).find? (fun ip => photoFindPred ip.2 pid) = none :=
    (find?_enumFrom_none _ 0 photos).mpr hph
  have h2 : (enumFrom 0 partners).find? (fun ip => photoFindPred ip.2 pid) = none :=
    (find?_enumFrom_none _ 0 partners).mpr hpa
  constructor
  · simp [deletePhotoOp, h1]
  · simp [deletePartnerOp, h2]

/-- Witness for the not-found policy at a concrete record. -/
theorem delete_notFound_policy_witness :
    deletePhotoOp destroyAllOk true [⟨some "zz", some "k1", none⟩] "q"
      = ⟨[⟨some "zz", some "k1", none⟩].filter (fun p => !photoCleanupPred p "q"),
          .notFound, [], []⟩ :=
  (delete_notFound_policy destroyAllOk [⟨some "zz", some "k1", none⟩] [] "q"
    (by decide) (by decide)).1

/-- C10: for every nonempty identifier the location test and the
cleanup test coincide, so when the photo or partner deletion reports
NOT_FOUND the addressed collection is left exactly unchanged — the
defensive cleanup pass can never remove an entry. -/
theorem notFound_leaves_unchanged (destroy : String → RemoteResult)
    (photos partners : List Photo) (pid : String) (hpid : pid ≠ "") :
    (∀ p : Photo, photoFindPred p pid = photoCleanupPred p pid)
    ∧ ((deletePhotoOp destroy true photos pid).outcome = .notFound →
        (deletePhotoOp destroy true photos pid).state = photos)
    ∧ ((deletePartnerOp destroy true partners pid).outcome = .notFound →
        (deletePartnerOp destroy true partners pid).state = partners) := by
  refine ⟨fun p => findPred_eq_cleanupPred p pid hpid, ?_, ?_⟩
  · cases h : (enumFrom 0 photos).find? (fun ip => photoFindPred ip.2 pid) with
    | none =>
      intro _
      simp only [deletePhotoOp, h, if_true]
      apply List.filter_eq_self.mpr
      intro a ha
      have hcl : photoCleanupPred a pid = false := by
        rw [← findPred_eq_cleanupPred a pid hpid]
        exact (find?_enumFrom_none (fun x => photoFindPred x pid) 0 photos).mp h a ha
      simp [hcl]
    | some ip =>
      obtain ⟨i, photo⟩ := ip
      intro hcontra
      simp [deletePhotoOp, h] at hcontra
  · cases h : (enumFrom 0 partners).find? (fun ip => photoFindPred ip.2 pid) with
    | none =>
      intro _
      simp only [deletePartnerOp, h, if_true]
      apply List.filter_eq_self.mpr
      intro a ha
      have hcl : photoCleanupPred a pid = false := by
        rw [← findPred_eq_cleanupPred a pid hpid]
        exact (find?_enumFrom_none (fun x => photoFindPred x pid) 0 partners).mp h a ha
      simp [hcl]
    | some ip =>
      obtain ⟨i, partner⟩ := ip
      intro hcontra
      simp [deletePartnerOp, h] at hcontra

/-- Witness: a NOT_FOUND photo deletion at a concrete record leaves it
unchanged. -/
theorem notFound_leaves_unchanged_witness :
    (deletePhotoOp destroyAllOk true [⟨some "zz", some "k1", none⟩] "q").state
      = [⟨some "zz", some "k1", none⟩] :=
  (notFound_leaves_unchanged destroyAllOk [⟨some "zz", some "k1", none⟩] [] "q"
    (by decide)).2.1 (by decide)

/-- Every element of the photo-deletion result fails the location test,
provided the identifier is nonempty and located at most one entry. -/
theorem photoOp_state_no_match (destroy : String → RemoteResult)
    (photos : List Photo) (pid : String) (hpid : pid ≠ "")
    (hcount : photos.countP (fun p => photoFindPred p pid) ≤ 1) :
    ∀ y ∈ (deletePhotoOp destroy true photos pid).state,
      photoFindPred y pid = false := by
  cases h : (enumFrom 0 photos).find? (fun ip => photoFindPred ip.2 pid) with
  | none =>
    intro y hy
    simp only [deletePhotoOp, h, if_true] at hy
    have hmem := List.mem_filter.mp hy
    rw [findPred_eq_cleanupPred y pid hpid]
    have hb := hmem.2
    simpa using hb
  | some ip =>
    obtain ⟨i, photo⟩ := ip
    obtain ⟨hppred, b, a, rfl, hi, hbfail⟩ :=
      find?_enumFrom_some (fun x => photoFindPred x pid) 0 photos i photo h
    have hsum : b.countP (fun p => photoFindPred p pid) = 0
        ∧ a.countP (fun p => photoFindPred p pid) = 0 := by
      rw [List.countP_append, List.countP_cons] at hcount
      simp only [hppred, if_true] at hcount
      constructor <;> omega
    have hb0 : ∀ y ∈ b, photoFindPred y pid = false := by
      intro y hy
      have := List.countP_eq_zero.mp hsum.1 y hy
      exact Bool.eq_false_iff.mpr (by simpa using this)
    have ha0 : ∀ y ∈ a, photoFindPred y pid = false := by
      intro y hy
      have := List.countP_eq_zero.mp hsum.2 y hy
      exact Bool.eq_false_iff.mpr (by simpa using this)
    intro y hy
    simp only [deletePhotoOp, h, if_true] at hy
    obtain ⟨jp, hjp, rfl⟩ := List.mem_map.mp hy
    have hjpK : jp ∈ (enumFrom 0 (b ++ photo :: a)).filter (fun jp =>
        !(jsStrictEq jp.2.public_id photo.public_id && jsTruthy photo.public_id)
        && jp.1 != i) := by
      split at hjp
      · exact (List.mem_filter.mp hjp).1
      · exact hjp
    have hfil := List.mem_filter.mp hjpK
    have hji : jp.1 ≠ i := by
      have h2 := hfil.2
      have h3 : (jp.1 != i) = true := by
        cases hii : (jp.1 != i)
        · rw [hii, Bool.and_false] at h2
          exact absurd h2 (by simp)
        · rfl
      simpa using h3
    have hjmem := hfil.1
    rw [enumFrom_append] at hjmem
    rcases List.mem_append.mp hjmem with hb' | hrest
    · exact hb0 jp.2 (snd_mem_enumFrom jp 0 b hb')
    · simp only [enumFrom] at hrest
      rcases List.mem_cons.mp hrest with heq | ha'
      · exfalso
        apply hji
        rw [heq, hi]
      · exact ha0 jp.2 (snd_mem_enumFrom jp (0 + b.length + 1) a ha')

/-- C5 counterexample: with two gallery entries whose URLs both contain
the identifier `a`, the first deletion removes only the first match, and
the second deletion, applied to the record produced by the first, still
finds an entry: it reports OK rather than NOT_FOUND and changes the
record again. -/
theorem deletePhoto_not_idempotent :
    (deletePhotoOp destroyAllOk true
        (deletePhotoOp destroyAllOk true
          [⟨some "u/a", some "b", none⟩, ⟨some "w/a", some "c", none⟩] "a").state
        "a").outcome = .ok
    ∧ (deletePhotoOp destroyAllOk true
        (deletePhotoOp destroyAllOk true
          [⟨some "u/a", some "b", none⟩, ⟨some "w/a", some "c", none⟩] "a").state
        "a").state
      ≠ (deletePhotoOp destroyAllOk true
          [⟨some "u/a", some "b", none⟩, ⟨some "w/a", some "c", none⟩] "a").state := by
  decide

/-- C5 (amended): when the nonempty identifier locates at most one entry,
deleting it twice is idempotent: the second call reports NOT_FOUND and
leaves the record produced by the first call unchanged. -/
theorem deletePhoto_idempotent_unique (destroy : String → RemoteResult)
    (photos : List Photo) (pid : String) (hpid : pid ≠ "")
    (hcount : photos.countP (fun p => photoFindPred p pid) ≤ 1) :
    (deletePhotoOp destroy true
        (deletePhotoOp destroy true photos pid).state pid).outcome = .notFound
    ∧ (deletePhotoOp destroy true
        (deletePhotoOp destroy true photos pid).state pid).state
      = (deletePhotoOp destroy true photos pid).state := by
  have hno : ∀ y ∈ (deletePhotoOp destroy true photos pid).state,
      photoFindPred y pid = false :=
    photoOp_state_no_match destroy photos pid hpid hcount
  have hfind : (enumFrom 0 (deletePhotoOp destroy true photos pid).state).find?
      (fun ip => photoFindPred ip.2 pid) = none :=
    (find?_enumFrom_none (fun x => photoFindPred x pid) 0 _).mpr hno
  have hfilter : (deletePhotoOp destroy true photos pid).state.filter
      (fun p => !photoCleanupPred p pid) = (deletePhotoOp destroy true photos pid).state := by
    apply List.filter_eq_self.mpr
    intro a ha
    have hcl : photoCleanupPred a pid = false := by
      rw [← findPred_eq_cleanupPred a pid hpid]
      exact hno a ha
    simp [hcl]
  generalize hst : (deletePhotoOp destroy true photos pid).state = st at hfind hfilter ⊢
  constructor
  · simp [deletePhotoOp, hfind]
  · simp [deletePhotoOp, hfind, hfilter]

/-- Witness for the amended idempotence at a concrete record. -/
theorem deletePhoto_idempotent_unique_witness :
    (deletePhotoOp destroyAllOk true
        (deletePhotoOp destroyAllOk true
          [⟨some "cdn/x/y.jpg", some "x/y", none⟩] "x/y").state "x/y").outcome
      = .notFound :=
  (deletePhoto_idempotent_unique destroyAllOk
    [⟨some "cdn/x/y.jpg", some "x/y", none⟩] "x/y" (by decide) (by decide)).1

/-- The photo deletion never reads the remote reply: state, outcome and
requests are the same under any two remote stores. -/
theorem photoOp_destroy_indep (destroy destroy' : String → RemoteResult)
    (persistOk : Bool) (photos : List Photo) (pid : String) :
    (deletePhotoOp destroy persistOk photos pid).state
        = (deletePhotoOp destroy' persistOk photos pid).state
    ∧ (deletePhotoOp destroy persistOk photos pid).outcome
        = (deletePhotoOp destroy' persistOk photos pid).outcome
    ∧ (deletePhotoOp destroy persistOk photos pid).remoteRequests
        = (deletePhotoOp destroy' persistOk photos pid).remoteRequests := by
  cases h : (enumFrom 0 photos).find? (fun ip => photoFindPred ip.2 pid) with
  | none => cases persistOk <;> simp [deletePhotoOp, h]
  | some ip =>
    obtain ⟨i, photo⟩ := ip
    cases persistOk <;> simp [deletePhotoOp, h]

/-- The partner deletion never reads the remote reply. -/
theorem partnerOp_destroy_indep (destroy destroy' : String → RemoteResult)
    (persistOk : Bool) (partners : List Photo) (pid : String) :
    (deletePartnerOp destroy persistOk partners pid).state
        = (deletePartnerOp destroy' persistOk partners pid).state
    ∧ (deletePartnerOp destroy persistOk partners pid).outcome
        = (deletePartnerOp destroy' persistOk partners pid).outcome
    ∧ (deletePartnerOp destroy persistOk partners pid).remoteRequests
        = (deletePartnerOp destroy' persistOk partners pid).remoteRequests := by
  cases h : (enumFrom 0 partners).find? (fun ip => photoFindPred ip.2 pid) with
  | none => cases persistOk <;> simp [deletePartnerOp, h]
  | some ip =>
    obtain ⟨i, partner⟩ := ip
    cases persistOk <;> simp [deletePartnerOp, h]

/-- The award-slot-photo deletion never reads the remote reply. -/
theorem awardPhotoOp_destroy_indep (destroy destroy' : String → RemoteResult)
    (persistOk : Bool) (awards : List AwardCat) (photos : List Photo)
    (category roleStr : String) :
    (deleteAwardPhotoOp destroy persistOk awards photos category roleStr).state
        = (deleteAwardPhotoOp destroy' persistOk awards photos category roleStr).state
    ∧ (deleteAwardPhotoOp destroy persistOk awards photos category roleStr).outcome
        = (deleteAwardPhotoOp destroy' persistOk awards photos category roleStr).outcome
    ∧ (deleteAwardPhotoOp destroy persistOk awards photos category roleStr).remoteRequests
        = (deleteAwardPhotoOp destroy' persistOk awards photos category roleStr).remoteRequests := by
  by_cases hc : category = ""
  · simp [deleteAwardPhotoOp, hc]
  · cases hr : parseRole roleStr with
    | none => simp [deleteAwardPhotoOp, hc, hr]
    | some role =>
      cases hf : awards.find? (fun a => a.category == category) with
      | none => simp [deleteAwardPhotoOp, hc, hr, hf]
      | some cat =>
        cases hp : getRole role cat with
        | none => simp [deleteAwardPhotoOp, hc, hr, hf, hp]
        | some person =>
          cases persistOk <;> simp [deleteAwardPhotoOp, hc, hr, hf, hp]

/-- The award-category deletion never reads the remote reply. -/
theorem awardCategoryOp_destroy_indep (destroy destroy' : String → RemoteResult)
    (persistOk : Bool) (awards : List AwardCat) (photos : List Photo)
    (category : String) :
    (deleteAwardCategoryOp destroy persistOk awards photos category).state
        = (deleteAwardCategoryOp destroy' persistOk awards photos category).state
    ∧ (deleteAwardCategoryOp destroy persistOk awards photos category).outcome
        = (deleteAwardCategoryOp destroy' persistOk awards photos category).outcome
    ∧ (deleteAwardCategoryOp destroy persistOk awards photos category).remoteRequests
        = (deleteAwardCategoryOp destroy' persistOk awards photos category).remoteRequests := by
  by_cases hc : category = ""
  · simp [deleteAwardCategoryOp, hc]
  · cases hf : awards.find? (fun a => a.category == category) with
    | none => simp [deleteAwardCategoryOp, hc, hf]
    | some cat => cases persistOk <;> simp [deleteAwardCategoryOp, hc, hf]

/-- A photo deletion reports a server error only when persistence fails. -/
theorem photoOp_serverError (destroy : String → RemoteResult) (persistOk : Bool)
    (photos : List Photo) (pid : String) :
    (deletePhotoOp destroy persistOk photos pid).outcome = .serverError →
      persistOk = false := by
  cases persistOk
  · intro _; rfl
  · intro h
    exfalso
    cases hf : (enumFrom 0 photos).find? (fun ip => photoFindPred ip.2 pid) with
    | none => simp [deletePhotoOp, hf] at h
    | some ip =>
      obtain ⟨i, photo⟩ := ip
      simp [deletePhotoOp, hf] at h

/-- A partner deletion reports a server error only when persistence fails. -/
theorem partnerOp_serverError (destroy : String → RemoteResult) (persistOk : Bool)
    (partners : List Photo) (pid : String) :
    (deletePartnerOp destroy persistOk partners pid).outcome = .serverError →
      persistOk = false := by
  cases persistOk
  · intro _; rfl
  · intro h
    exfalso
    cases hf : (enumFrom 0 partners).find? (fun ip => photoFindPred ip.2 pid) with
    | none => simp [deletePartnerOp, hf] at h
    | some ip =>
      obtain ⟨i, partner⟩ := ip
      simp [deletePartnerOp, hf] at h

/-- An award-slot-photo deletion reports a server error only when
persistence fails. -/
theorem awardPhotoOp_serverError (destroy : String → RemoteResult) (persistOk : Bool)
    (awards : List AwardCat) (photos : List Photo) (category roleStr : String) :
    (deleteAwardPhotoOp destroy persistOk awards photos category roleStr).outcome
        = .serverError → persistOk = false := by
  cases persistOk
  · intro _; rfl
  · intro h
    exfalso
    by_cases hc : category = ""
    · simp [deleteAwardPhotoOp, hc] at h
    · cases hr : parseRole roleStr with
      | none => simp [deleteAwardPhotoOp, hc, hr] at h
      | some role =>
        cases hf : awards.find? (fun a => a.category == category) with
        | none => simp [deleteAwardPhotoOp, hc, hr, hf] at h
        | some cat =>
          cases hp : getRole role cat with
          | none => simp [deleteAwardPhotoOp, hc, hr, hf, hp] at h
          | some person => simp [deleteAwardPhotoOp, hc, hr, hf, hp] at h

/-- An award-category deletion reports a server error only when
persistence fails. -/
theorem awardCategoryOp_serverError (destroy : String → RemoteResult) (persistOk : Bool)
    (awards : List AwardCat) (photos : List Photo) (category : String) :
    (deleteAwardCategoryOp destroy persistOk awards photos category).outcome
        = .serverError → persistOk = false := by
  cases persistOk
  · intro _; rfl
  · intro h
    exfalso
    by_cases hc : category = ""
    · simp [deleteAwardCategoryOp, hc] at h
    · cases hf : awards.find? (fun a => a.category == category) with
      | none => simp [deleteAwardCategoryOp, hc, hf] at h
      | some cat => simp [deleteAwardCategoryOp, hc, hf] at h

/-- C9: for every deletion operation, the remote media store's replies
(success, not-found or thrown error) are swallowed: the persisted state,
the reported outcome and the requests issued are identical under any two
remote stores; and a server error is reported only on a persistence
failure. -/
theorem remote_failures_unobservable (destroy destroy' : String → RemoteResult)
    (persistOk : Bool) (photos partners gallery : List Photo)
    (awards : List AwardCat) (pid category roleStr : String) :
    ((deletePhotoOp destroy persistOk photos pid).state
        = (deletePhotoOp destroy' persistOk photos pid).state
      ∧ (deletePhotoOp destroy persistOk photos pid).outcome
        = (deletePhotoOp destroy' persistOk photos pid).outcome
      ∧ (deletePhotoOp destroy persistOk photos pid).remoteRequests
        = (deletePhotoOp destroy' persistOk photos pid).remoteRequests)
    ∧ ((deletePartnerOp destroy persistOk partners pid).state
        = (deletePartnerOp destroy' persistOk partners pid).state
      ∧ (deletePartnerOp destroy persistOk partners pid).outcome
        = (deletePartnerOp destroy' persistOk partners pid).outcome
      ∧ (deletePartnerOp destroy persistOk partners pid).remoteRequests
        = (deletePartnerOp destroy' persistOk partners pid).remoteRequests)
    ∧ ((deleteAwardPhotoOp destroy persistOk awards gallery category roleStr).state
        = (deleteAwardPhotoOp destroy' persistOk awards gallery category roleStr).state
      ∧ (deleteAwardPhotoOp destroy persistOk awards gallery category roleStr).outcome
        = (deleteAwardPhotoOp destroy' persistOk awards gallery category roleStr).outcome)
    ∧ ((deleteAwardCategoryOp destroy persistOk awards gallery category).state
        = (deleteAwardCategoryOp destroy' persistOk awards gallery category).state
      ∧ (deleteAwardCategoryOp destroy persistOk awards gallery category).outcome
        = (deleteAwardCategoryOp destroy' persistOk awards gallery category).outcome)
    ∧ ((deletePhotoOp destroy persistOk photos pid).outcome = .serverError →
        persistOk = false)
    ∧ ((deletePartnerOp destroy persistOk partners pid).outcome = .serverError →
        persistOk = false)
    ∧ ((deleteAwardPhotoOp destroy persistOk awards gallery category roleStr).outcome
        = .serverError → persistOk = false)
    ∧ ((deleteAwardCategoryOp destroy persistOk awards gallery category).outcome
        = .serverError → persistOk = false) :=
  ⟨photoOp_destroy_indep destroy destroy' persistOk photos pid,
   partnerOp_destroy_indep destroy destroy' persistOk partners pid,
   ⟨(awardPhotoOp_destroy_indep destroy destroy' persistOk awards gallery category roleStr).1,
    (awardPhotoOp_destroy_indep destroy destroy' persistOk awards gallery category roleStr).2.1⟩,
   ⟨(awardCategoryOp_destroy_indep destroy destroy' persistOk awards gallery category).1,
    (awardCategoryOp_destroy_indep destroy destroy' persistOk awards gallery category).2.1⟩,
   photoOp_serverError destroy persistOk photos pid,
   partnerOp_serverError destroy persistOk partners pid,
   awardPhotoOp_serverError destroy persistOk awards gallery category roleStr,
   awardCategoryOp_serverError destroy persistOk awards gallery category⟩

/-- Witness: a failing remote store produces the same persisted photos
as a succeeding one, and a deletion that cannot persist reports a server
error at a concrete record. -/
theorem remote_failures_unobservable_witness :
    (deletePhotoOp destroyAllOk true [⟨some "u/k.jpg", some "k", none⟩] "k").state
      = (deletePhotoOp destroyAllErr true [⟨some "u/k.jpg", some "k", none⟩] "k").state
    ∧ false = false :=
  ⟨(remote_failures_unobservable destroyAllOk destroyAllErr true
      [⟨some "u/k.jpg", some "k", none⟩] [] [] [] "k" "c" "winner").1.1,
   (remote_failures_unobservable destroyAllOk destroyAllErr false
      [⟨some "u/k.jpg", some "k", none⟩] [] [] [] "k" "c" "winner").2.2.2.2.1
     (by decide)⟩

/-- C6: deleting an award slot's photo clears only the slot's `photo`
sub-field: the operation succeeds, the category is still present, the
addressed slot keeps its `name` and role/position with the photo
cleared, and the other two slots are untouched. -/
theorem deleteAwardPhoto_frame (destroy : String → RemoteResult)
    (awards : List AwardCat) (photos : List Photo) (category roleStr : String)
    (role : Role) (cat : AwardCat) (person : Person) (ph : PhotoRef)
    (hcat : category ≠ "")
    (hrole : parseRole roleStr = some role)
    (hfind : awards.find? (fun a => a.category == category) = some cat)
    (hperson : getRole role cat = some person)
    (_hph : person.photo = some ph) :
    (deleteAwardPhotoOp destroy true awards photos category roleStr).outcome = .ok
    ∧ (deleteAwardPhotoOp destroy true awards photos category roleStr).state.1.find?
        (fun a => a.category == category)
        = some (setRole role (some (Person.mk person.name person.position none)) cat)
    ∧ getRole role (setRole role (some (Person.mk person.name person.position none)) cat)
        = some (Person.mk person.name person.position none)
    ∧ ∀ r' : Role, r' ≠ role →
        getRole r' (setRole role (some (Person.mk person.name person.position none)) cat)
          = getRole r' cat := by
  have hpcat := List.find?_some hfind
  have hpres : (fun a => a.category == category)
      (setRole role (some (Person.mk person.name person.position none)) cat) = true := by
    simpa [setRole_category] using hpcat
  have hupd := find?_updFirst (fun a => a.category == category)
    (setRole role (some (Person.mk person.name person.position none))) awards cat hfind hpres
  refine ⟨?_, ?_, getRole_setRole_same role _ cat,
    fun r' hr' => getRole_setRole_other role r' _ cat hr'⟩
  · simp [deleteAwardPhotoOp, hcat, hrole, hfind, hperson]
  · simp only [deleteAwardPhotoOp]
    rw [if_neg hcat]
    simp only [hrole, hfind, hperson, if_true]
    exact hupd

/-- A concrete award category for exercising the slot-photo deletion. -/
def catFrameW : AwardCat :=
  ⟨"Best Film",
   some ⟨some "Ada", some "winner", some ⟨some "https://h/upload/v1/f/n.jpg", some "f/n"⟩⟩,
   none, none⟩

/-- Witness for the frame property at a concrete record. -/
theorem deleteAwardPhoto_frame_witness :
    (deleteAwardPhotoOp destroyAllOk true [catFrameW] [] "Best Film" "winner").outcome = .ok
    ∧ (deleteAwardPhotoOp destroyAllOk true [catFrameW] [] "Best Film" "winner").state.1.find?
        (fun a => a.category == "Best Film")
      = some (setRole .winner (some (Person.mk (some "Ada") (some "winner") none)) catFrameW) :=
  ⟨(deleteAwardPhoto_frame destroyAllOk [catFrameW] [] "Best Film" "winner" .winner catFrameW
      ⟨some "Ada", some "winner", some ⟨some "https://h/upload/v1/f/n.jpg", some "f/n"⟩⟩
      ⟨some "https://h/upload/v1/f/n.jpg", some "f/n"⟩
      (by decide) (by decide) (by decide) (by decide) (by decide)).1,
   (deleteAwardPhoto_frame destroyAllOk [catFrameW] [] "Best Film" "winner" .winner catFrameW
      ⟨some "Ada", some "winner", some ⟨some "https://h/upload/v1/f/n.jpg", some "f/n"⟩⟩
      ⟨some "https://h/upload/v1/f/n.jpg", some "f/n"⟩
      (by decide) (by decide) (by decide) (by decide) (by decide)).2.1⟩

/-- The per-slot fold of the category handler, flattened. -/
theorem foldl_photo_flatten (g : PhotoRef → List String) :
    ∀ (people : List Person) (acc : List String),
      people.foldl (fun a per =>
          match per.photo with
          | none => a
          | some ph => a ++ g ph) acc
        = acc ++ (people.map (fun per =>
            match per.photo with
            | none => []
            | some ph => g ph)).flatten := by
  intro people
  induction people with
  | nil => simp
  | cons per ps ih =>
    intro acc
    cases hph : per.photo with
    | none => simp [List.foldl_cons, hph, ih]
    | some ph => simp [List.foldl_cons, hph, ih, List.append_assoc]

/-- C7 counterexample: the slot photo carries no explicit key, so its
only canonical-key candidate is the URL-derived `f/n`, which is indeed
sent to the remote store; yet the flat gallery entry whose key equals
that very candidate survives the sweep (the sweep compares only against
the explicit key and the raw URL), while the claim requires it removed. -/
theorem deleteAwardCategory_sweep_misses_candidate :
    (deleteAwardCategoryOp destroyAllOk true
        [⟨"cat1", some ⟨some "W", some "winner",
            some ⟨some "https://h/upload/v1/f/n.jpg", none⟩⟩, none, none⟩]
        [⟨none, some "f/n", none⟩] "cat1").remoteRequests = ["f/n"]
    ∧ jsEqStr (Photo.mk none (some "f/n") none).public_id "f/n" = true
    ∧ (deleteAwardCategoryOp destroyAllOk true
        [⟨"cat1", some ⟨some "W", some "winner",
            some ⟨some "https://h/upload/v1/f/n.jpg", none⟩⟩, none, none⟩]
        [⟨none, some "f/n", none⟩] "cat1").state.2 = [⟨none, some "f/n", none⟩]
    ∧ (deleteAwardCategoryOp destroyAllOk true
        [⟨"cat1", some ⟨some "W", some "winner",
            some ⟨some "https://h/upload/v1/f/n.jpg", none⟩⟩, none, none⟩]
        [⟨none, some "f/n", none⟩] "cat1").outcome = .ok := by
  decide

/-- C7 (amended): deleting an existing category removes every category
of that name from the awards list, attempts remote deletion of every
nonempty canonical-key candidate (explicit key or URL-derived) of every
populated slot's photo — independently, with replies swallowed (state
and outcome are the same under any remote store) — and sweeps the flat
photos list of every entry whose key or URL strictly equals, or whose
URL contains, one of the slot photos' explicit keys or raw URLs (the
URL-derived candidate is used only against the remote store). -/
theorem deleteAwardCategory_spec (destroy : String → RemoteResult)
    (awards : List AwardCat) (photos : List Photo) (category : String)
    (cat : AwardCat) (hcat : category ≠ "")
    (hfind : awards.find? (fun a => a.category == category) = some cat) :
    (deleteAwardCategoryOp destroy true awards photos category).outcome = .ok
    ∧ (deleteAwardCategoryOp destroy true awards photos category).state.1
        = awards.filter (fun a => !(a.category == category))
    ∧ (∀ per ∈ [cat.winner, cat.firstRunnerUp, cat.secondRunnerUp].filterMap id,
        ∀ ph, per.photo = some ph → ∀ c ∈ slotCandidates ph, c ≠ "" →
          c ∈ (deleteAwardCategoryOp destroy true awards photos category).remoteRequests)
    ∧ (deleteAwardCategoryOp destroy true awards photos category).state.2
        = photos.filter (fun p =>
            !((categorySweepKeys
                ([cat.winner, cat.firstRunnerUp, cat.secondRunnerUp].filterMap id)).any
              (fun x => jsEqStr p.public_id x || jsEqStr p.url x || urlIncludes p.url x)))
    ∧ (∀ destroy' : String → RemoteResult,
        (deleteAwardCategoryOp destroy' true awards photos category).state
          = (deleteAwardCategoryOp destroy true awards photos category).state
        ∧ (deleteAwardCategoryOp destroy' true awards photos category).outcome
          = (deleteAwardCategoryOp destroy true awards photos category).outcome) := by
  refine ⟨?_, ?_, ?_, ?_, ?_⟩
  · simp [deleteAwardCategoryOp, hcat, hfind]
  · simp [deleteAwardCategoryOp, hcat, hfind]
  · intro per hper ph hph c hc hcne
    have hreq : (deleteAwardCategoryOp destroy true awards photos category).remoteRequests
        = ([cat.winner, cat.firstRunnerUp, cat.secondRunnerUp].filterMap id).foldl
            (fun acc per =>
              match per.photo with
              | none => acc
              | some ph => acc ++ dedupKeep [] (slotCandidates ph)) [] := by
      simp [deleteAwardCategoryOp, hcat, hfind]
    rw [hreq, foldl_photo_flatten (fun ph => dedupKeep [] (slotCandidates ph))]
    have hcd : c ∈ dedupKeep [] (slotCandidates ph) := by
      rcases mem_dedupKeep c hcne (slotCandidates ph) [] hc with h | h
      · exact h
      · simp at h
    refine List.mem_append.mpr (Or.inr ?_)
    refine List.mem_flatten.mpr ⟨dedupKeep [] (slotCandidates ph), ?_, hcd⟩
    refine List.mem_map.mpr ⟨per, hper, ?_⟩
    rw [hph]
  · by_cases hempty : (categorySweepKeys
        ([cat.winner, cat.firstRunnerUp, cat.secondRunnerUp].filterMap id)).isEmpty = true
    · have hkeys : categorySweepKeys
          ([cat.winner, cat.firstRunnerUp, cat.secondRunnerUp].filterMap id) = [] := by
        simpa using hempty
      have hst : (deleteAwardCategoryOp destroy true awards photos category).state.2
          = photos := by
        simp [deleteAwardCategoryOp, hcat, hfind, hempty]
      rw [hst, hkeys]
      symm
      apply List.filter_eq_self.mpr
      intro a _
      simp
    · have hemptyf : (categorySweepKeys
          ([cat.winner, cat.firstRunnerUp, cat.secondRunnerUp].filterMap id)).isEmpty
          = false := by
        simpa using hempty
      simp [deleteAwardCategoryOp, hcat, hfind, hemptyf]
  · intro destroy'
    exact ⟨(awardCategoryOp_destroy_indep destroy' destroy true awards photos category).1,
      (awardCategoryOp_destroy_indep destroy' destroy true awards photos category).2.1⟩

/-- A concrete award category for exercising whole-category deletion. -/
def catSweepW : AwardCat :=
  ⟨"Best Doc",
   some ⟨some "Lee", some "winner",
     some ⟨some "https://h/upload/v1/events/awards/lee.jpg", some "events/awards/lee"⟩⟩,
   none, none⟩

/-- Witness for the amended category-deletion theorem at a concrete
record. -/
theorem deleteAwardCategory_spec_witness :
    (deleteAwardCategoryOp destroyAllOk true [catSweepW]
        [⟨some "https://h/upload/v1/events/awards/lee.jpg", some "events/awards/lee", none⟩]
        "Best Doc").outcome = .ok
    ∧ (deleteAwardCategoryOp destroyAllOk true [catSweepW]
        [⟨some "https://h/upload/v1/events/awards/lee.jpg", some "events/awards/lee", none⟩]
        "Best Doc").state.1 = [catSweepW].filter (fun a => !(a.category == "Best Doc")) :=
  ⟨(deleteAwardCategory_spec destroyAllOk [catSweepW]
      [⟨some "https://h/upload/v1/events/awards/lee.jpg", some "events/awards/lee", none⟩]
      "Best Doc" catSweepW (by decide) (by decide)).1,
   (deleteAwardCategory_spec destroyAllOk [catSweepW]
      [⟨some "https://h/upload/v1/events/awards/lee.jpg", some "events/awards/lee", none⟩]
      "Best Doc" catSweepW (by decide) (by decide)).2.1⟩

/-- String-level extension stripping: a nonempty all-alphanumeric
extension after the last dot is removed, whatever comes before. -/
theorem stripExt_append_ext (a e : String) (he : e.toList ≠ [])
    (hall : ∀ c ∈ e.toList, Char.isAlphanum c = true) :
    stripExt (a ++ "." ++ e) = a := by
  have hdata : (a ++ "." ++ e).toList = a.toList ++ '.' :: e.toList := by
    show ((a ++ ".") ++ e).data = a.data ++ '.' :: e.data
    rw [String.data_append, String.data_append]
    simp
  simp only [stripExt, hdata]
  rw [charStripExt_ext a.toList e.toList he hall]
  rfl

/-- The segment pipeline on a pathname of the claimed
`…/upload/v<digits>/<folder>/<name>.<ext>` shape: everything up to and
including `upload` is dropped, the `v<digits>` version segment is
dropped, the rest is joined with `/` and the extension is stripped. -/
theorem derivePublicIdFromPath_spec (path : String) (pre : List String)
    (d folder name ext : String)
    (hparts : (jsSplitSlash path).filter (· != "")
        = pre ++ ["upload", "v" ++ d, folder, name ++ "." ++ ext])
    (hpre : ∀ x ∈ pre, (x == "upload" || x == "uploads") = false)
    (hd : d.toList ≠ []) (hdig : d.toList.all Char.isDigit = true)
    (hext : ext.toList ≠ []) (hall : ∀ c ∈ ext.toList, Char.isAlphanum c = true) :
    derivePublicIdFromPath path = folder ++ "/" ++ name := by
  have hfi : jsFindIndex (fun q => q == "upload" || q == "uploads")
      ((jsSplitSlash path).filter (· != "")) = some pre.length := by
    rw [hparts]
    exact jsFindIndex_spec pre "upload" _ hpre (by decide)
  have hdrop : ((jsSplitSlash path).filter (· != "")).drop (pre.length + 1)
      = ["v" ++ d, folder, name ++ "." ++ ext] := by
    rw [hparts]
    exact drop_append_cons pre "upload" _
  have hver : isVersionSeg ("v" ++ d) = true := isVersionSeg_v_append d hd hdig
  have hjoin : joinSlash [folder, name ++ "." ++ ext]
      = (folder ++ "/" ++ name) ++ "." ++ ext := by
    show folder ++ "/" ++ (name ++ "." ++ ext) = (folder ++ "/" ++ name) ++ "." ++ ext
    apply String.ext
    simp [String.data_append]
  simp only [derivePublicIdFromPath, hfi, hdrop, hver, if_true]
  rw [hjoin, stripExt_append_ext (folder ++ "/" ++ name) ext hext hall]

/-- C2: on every URL of the shape
`…/upload/v<digits>/<folder>/<name>.<ext>` — a parsable URL whose
nonempty pathname segments are some prefix free of `upload`/`uploads`,
then `upload`, then a version segment `v` followed by digits, then the
folder and the extension-bearing name — the resolver returns
`<folder>/<name>`. -/
theorem extractPublicId_upload_url (s path : String) (pre : List String)
    (d folder name ext : String)
    (hsl : s.toList.contains '/' = true)
    (hparse : parseUrlPathname s = some path)
    (hparts : (jsSplitSlash path).filter (· != "")
        = pre ++ ["upload", "v" ++ d, folder, name ++ "." ++ ext])
    (hpre : ∀ x ∈ pre, (x == "upload" || x == "uploads") = false)
    (hd : d.toList ≠ []) (hdig : d.toList.all Char.isDigit = true)
    (hext : ext.toList ≠ []) (hall : ∀ c ∈ ext.toList, Char.isAlphanum c = true) :
    extractPublicId (some s) = some (folder ++ "/" ++ name) := by
  have hs : s ≠ "" := ne_empty_of_contains_slash s hsl
  have hderive := derivePublicIdFromPath_spec path pre d folder name ext
    hparts hpre hd hdig hext hall
  have hne : ¬ folder ++ "/" ++ name = "" := by
    intro hcontra
    have hdc := congrArg String.data hcontra
    simp [String.data_append] at hdc
  simp only [extractPublicId]
  rw [if_neg hs, hsl]
  simp only [Bool.not_true, Bool.and_false, Bool.false_eq_true, if_false]
  simp only [hparse, hderive]
  rw [if_neg hne]

/-- Witness: the resolver on a concrete upload URL of the claimed shape. -/
theorem extractPublicId_upload_url_witness :
    extractPublicId
        (some "https://res.cloudinary.com/demo/image/upload/v12345/events/pic1.jpg")
      = some ("events" ++ "/" ++ "pic1") :=
  extractPublicId_upload_url
    "https://res.cloudinary.com/demo/image/upload/v12345/events/pic1.jpg"
    "/demo/image/upload/v12345/events/pic1.jpg" ["demo", "image"]
    "12345" "events" "pic1" "jpg"
    (by decide) (by decide) (by decide) (by decide) (by decide) (by decide)
    (by decide) (by decide)

/-- C4: on a non-URL input containing a path separator (URL parsing
fails), the resolver returns the last nonempty `/`-delimited segment
with a trailing extension stripped; when there is no nonempty segment,
it returns the original input unmodified. -/
theorem extractPublicId_nonurl (s : String)
    (hparse : parseUrlPathname s = none)
    (hsl : s.toList.contains '/' = true) :
    (∀ l, ((jsSplitSlash s).filter (· != "")).getLast? = some l →
        extractPublicId (some s) = some (stripExt l))
    ∧ (((jsSplitSlash s).filter (· != "")).getLast? = none →
        extractPublicId (some s) = some s) := by
  have hs : s ≠ "" := ne_empty_of_contains_slash s hsl
  constructor
  · intro l hl
    simp only [extractPublicId]
    rw [if_neg hs, hsl]
    simp only [Bool.not_true, Bool.and_false, Bool.false_eq_true, if_false]
    simp only [hparse, hl]
  · intro hnone
    have hempty : (jsSplitSlash s).filter (· != "") = [] := by
      cases hfil : (jsSplitSlash s).filter (· != "") with
      | nil => rfl
      | cons x xs =>
        rw [hfil] at hnone
        simp [List.getLast?_eq_none_iff] at hnone
    have hallsep : ∀ c ∈ s.toList, c = '/' :=
      split_all_sep s.toList (by simpa [jsSplitSlash] using hempty)
    have hstrip : stripExt s = s := by
      simp only [stripExt]
      rw [charStripExt_all_sep s.toList hallsep]
      rfl
    simp only [extractPublicId]
    rw [if_neg hs, hsl]
    simp only [Bool.not_true, Bool.and_false, Bool.false_eq_true, if_false]
    simp only [hparse, hnone]
    rw [hstrip]

/-- Witness: the path-string fallback at a concrete non-URL input. -/
theorem extractPublicId_nonurl_witness :
    extractPublicId (some "folder/name.jpg") = some (stripExt "name.jpg") :=
  (extractPublicId_nonurl "folder/name.jpg" (by decide) (by decide)).1
    "name.jpg" (by decide)
